import Mathlib

/-!
Shallow embedding of the core of the board-game collection tracker
(`src/unnamed/part_000`): the in-memory data model, migration, CRUD over
the two collections, import, the display filter, and the aggregation
functions.  JS objects with optional keys are modelled as records of
`Option`-valued fields, where `none` models a missing key; JS string
truthiness (`undefined` and `""` are falsy) is modelled by `truthyS`.
-/

namespace BGT

/-- A game record as stored in the `games` collection.  Every field the
source ever reads is optional (`none` = missing key); `name` is the
legacy pre-migration title field. -/
structure RawGame where
  id : Option String := none
  name : Option String := none
  title : Option String := none
  status : Option String := none
  createdAt : Option String := none
  yearPublished : Option Int := none
  designer : Option String := none
  publisher : Option String := none
  minPlayers : Option Int := none
  maxPlayers : Option Int := none
  playTime : Option Int := none
  complexity : Option ℚ := none
  rating : Option ℚ := none
  categories : Option String := none
  acquisitionDate : Option String := none
  imageUrl : Option String := none
  notes : Option String := none
  deriving DecidableEq

/-- A play-session record.  `gameId` and `date` are always strings in the
data as constructed by the source (form `.value` reads), so they are
modelled as plain `String`. -/
structure Session where
  id : Option String := none
  gameId : String := ""
  date : String := ""
  duration : Option Int := none
  players : Option (List String) := none
  winners : Option (List String) := none
  notes : Option String := none
  createdAt : Option String := none
  deriving DecidableEq

/-- The two top-level in-memory collections (`games`, `sessions`). -/
structure AppState where
  games : List RawGame := []
  sessions : List Session := []
  deriving DecidableEq

/-- JS truthiness of an optional string: missing and `""` are falsy. -/
def truthyS : Option String → Bool
  | none => false
  | some s => !(s == "")

/-- Embeds the JS idiom `o || d` for an optional string `o` and a
non-empty default `d` (the result is always a present key). -/
def jsOr (o : Option String) (d : String) : Option String :=
  match o with
  | some s => if s = "" then some d else some s
  | none => some d

/-- `migrateGameData` (source lines 94-109): if `name` is truthy and
`title` is falsy, copy `name` into `title`; in both branches default
`status` to `"owned"` and `createdAt` to the current time `now`
(`new Date().toISOString()`, passed here as a parameter). -/
def migrateGameData (now : String) (g : RawGame) : RawGame :=
  if truthyS g.name && !(truthyS g.title) then
    { g with
      title := g.name
      status := jsOr g.status "owned"
      createdAt := jsOr g.createdAt now }
  else
    { g with
      status := jsOr g.status "owned"
      createdAt := jsOr g.createdAt now }

/-- One field of the JS object spread `{...old, ...new}`: a key present
in the update wins, a missing key keeps the old value. -/
def mergeF (o n : Option α) : Option α :=
  match n with
  | some v => some v
  | none => o

/-- The object spread `{ ...games[index], ...gameData }` from `saveGame`
(source line 285), field by field. -/
def mergeGame (old gd : RawGame) : RawGame where
  id := mergeF old.id gd.id
  name := mergeF old.name gd.name
  title := mergeF old.title gd.title
  status := mergeF old.status gd.status
  createdAt := mergeF old.createdAt gd.createdAt
  yearPublished := mergeF old.yearPublished gd.yearPublished
  designer := mergeF old.designer gd.designer
  publisher := mergeF old.publisher gd.publisher
  minPlayers := mergeF old.minPlayers gd.minPlayers
  maxPlayers := mergeF old.maxPlayers gd.maxPlayers
  playTime := mergeF old.playTime gd.playTime
  complexity := mergeF old.complexity gd.complexity
  rating := mergeF old.rating gd.rating
  categories := mergeF old.categories gd.categories
  acquisitionDate := mergeF old.acquisitionDate gd.acquisitionDate
  imageUrl := mergeF old.imageUrl gd.imageUrl
  notes := mergeF old.notes gd.notes

/-- `generateId` (source lines 150-152): the concatenation of
`Date.now().toString(36)` and the random suffix.  The two components are
inputs here; the code provides no further collision protection. -/
def generateId (timeStr randStr : String) : String :=
  timeStr ++ randStr

/-- `findIndex` + assignment at that index: replace the first element
satisfying `p` by its image under `f`; unchanged when nothing matches
(the `index !== -1` guard of the source). -/
def updateFirst (p : α → Bool) (f : α → α) : List α → List α
  | [] => []
  | x :: xs => if p x then f x :: xs else x :: updateFirst p f xs

/-- `saveGame` (source lines 280-298) acting on the games list.  The id
check `if (gameData.id)` is a truthiness test, so a present-but-empty id
takes the create branch.  `e` is the entropy consumed by `generateId`
(time string, random string); `now` is `new Date().toISOString()`. -/
def saveGame (e : String × String) (now : String) (gd : RawGame)
    (gs : List RawGame) : List RawGame :=
  if truthyS gd.id then
    updateFirst (fun g => g.id == gd.id) (fun old => mergeGame old gd) gs
  else
    gs ++ [{ gd with id := some (generateId e.1 e.2), createdAt := some now }]

/-- A sequence of `saveGame` calls, each with its own entropy, timestamp
and input record, applied left to right. -/
def runSaves (inputs : List ((String × String) × String × RawGame))
    (gs : List RawGame) : List RawGame :=
  inputs.foldl (fun acc i => saveGame i.1 i.2.1 i.2.2 acc) gs

/-- `deleteGame` (source lines 304-310): drop the game with the given id
and every session whose `gameId` equals it. -/
def deleteGame (gid : String) (st : AppState) : AppState where
  games := st.games.filter (fun g => !(g.id == some gid))
  sessions := st.sessions.filter (fun s => !(s.gameId == gid))

/-- The shape of the `games` field of a parsed import document:
missing key, present but falsy-or-not-an-array, or an actual array.
`!data.games || !Array.isArray(data.games)` rejects the first two. -/
inductive GamesField
  | missing
  | notArray
  | arr (gs : List RawGame)
  deriving DecidableEq

/-- A parsed import document (`games` and `sessions` fields; the other
keys are never read by `importData`). -/
structure ImportDoc where
  games : GamesField := .missing
  sessions : Option (List Session) := none
  deriving DecidableEq

/-- Outcome of an import attempt. -/
inductive ImportOutcome
  | failed
  | cancelled
  | imported
  deriving DecidableEq

/-- `importData` (source lines 1102-1131) acting on the state: a missing
or non-array `games` field throws before anything is adopted; otherwise,
after the user confirms (`confirmOk`), every game is migrated and the
whole state is replaced, `sessions` defaulting to `[]` when absent. -/
def importData (confirmOk : Bool) (now : String) (doc : ImportDoc)
    (st : AppState) : AppState × ImportOutcome :=
  match doc.games with
  | .missing => (st, .failed)
  | .notArray => (st, .failed)
  | .arr gs =>
    if confirmOk then
      ({ games := gs.map (migrateGameData now),
         sessions := doc.sessions.getD [] }, .imported)
    else
      (st, .cancelled)

/-- JS `String.prototype.toLowerCase` on the character list of a
string. -/
def jsToLower (s : String) : String :=
  ⟨s.data.map Char.toLower⟩

/-- Does `hay` start with `needle`?  (Helper for the substring scan.) -/
def startsB : List Char → List Char → Bool
  | [], _ => true
  | _ :: _, [] => false
  | a :: as, b :: bs => a == b && startsB as bs

/-- JS `hay.includes(needle)`: does `needle` occur as a contiguous
segment of `hay`?  (The empty needle always occurs.) -/
def containsB (hay needle : List Char) : Bool :=
  match hay with
  | [] => needle.isEmpty
  | _ :: t => startsB needle hay || containsB t needle

/-- One disjunct of the search match: case-insensitive containment of
the (already lowercased) term in an optional field, a missing field
read as `''` (source: `(game.title || '').toLowerCase().includes`). -/
def fieldMatches (field : Option String) (term : String) : Bool :=
  containsB (jsToLower (field.getD "")).data term.data

/-- The display filter of `renderGames` (source lines 407-419): keep a
game iff the search term (lowercased on entry, as at line 402) is empty
or occurs in one of title/designer/publisher/categories, and the status
filter is `"all"` or equals the game's status. -/
def keepGame (searchRaw statusFilter : String) (g : RawGame) : Bool :=
  let searchTerm := jsToLower searchRaw
  let matchesSearch := searchTerm == "" ||
    fieldMatches g.title searchTerm ||
    fieldMatches g.designer searchTerm ||
    fieldMatches g.publisher searchTerm ||
    fieldMatches g.categories searchTerm
  let matchesStatus := statusFilter == "all" || g.status == some statusFilter
  matchesSearch && matchesStatus

/-- `playCounts[key] = (playCounts[key] || 0) + 1` on an association
list in insertion order: increment an existing entry, or append a new
one with count 1. -/
def bump (l : List (String × Nat)) (g : String) : List (String × Nat) :=
  match l with
  | [] => [(g, 1)]
  | (k, c) :: t => if k = g then (k, c + 1) :: t else (k, c) :: bump t g

/-- The value stored under key `g` (`0` when the key is absent). -/
def valOf (l : List (String × Nat)) (g : String) : Nat :=
  ((l.find? (fun p => p.1 == g)).map (fun p => p.2)).getD 0

/-- The tally object of `renderMostPlayedGames` (source lines 690-693):
session count per `gameId`, keys in first-occurrence order. -/
def playCounts (ss : List Session) : List (String × Nat) :=
  ss.foldl (fun acc s => bump acc s.gameId) []

/-- Stable insertion of `x` into a list sorted descending by `key`:
`x` goes before `y` only when its key is strictly larger, so elements
with equal keys keep their original relative order — the result of the
(stable) JS `sort((a, b) => keyB - keyA)`. -/
def insertKeyDesc [LinearOrder β] (key : α → β) (x : α) : List α → List α
  | [] => [x]
  | y :: ys => if key y < key x then x :: y :: ys else y :: insertKeyDesc key x ys

/-- Stable sort, descending by `key` (JS `Array.prototype.sort` with
comparator `(a, b) => key(b) - key(a)`, which is stable). -/
def sortKeyDesc [LinearOrder β] (key : α → β) (l : List α) : List α :=
  l.foldl (fun acc x => insertKeyDesc key x acc) []

/-- `renderMostPlayedGames` (source lines 685-724) as a value: the top
10 `(gameId, count)` pairs by descending count, each with its bar
percentage `count / maxPlays * 100` where `maxPlays` is the first
entry's count; `[]` when no plays exist (the early return before any
division). -/
def mostPlayed (ss : List Session) : List (String × Nat × ℚ) :=
  let top := (sortKeyDesc (fun p => p.2) (playCounts ss)).take 10
  match top with
  | [] => []
  | (_, c0) :: _ =>
    top.map (fun p => (p.1, p.2, ((p.2 : ℚ) / (c0 : ℚ)) * 100))

/-- The tally of `renderFrequentPlayers` (source lines 734-741):
occurrence count per player name over all sessions' `players` lists
(exact string equality, missing lists skipped). -/
def playerCounts (ss : List Session) : List (String × Nat) :=
  ss.foldl
    (fun acc s =>
      match s.players with
      | some ps => ps.foldl (fun a p => bump a p) acc
      | none => acc)
    []

/-- `renderFrequentPlayers` (source lines 729-770) as a value: top 10
players by descending count with bar percentages, `[]` when no players
were recorded. -/
def frequentPlayers (ss : List Session) : List (String × Nat × ℚ) :=
  let top := (sortKeyDesc (fun p => p.2) (playerCounts ss)).take 10
  match top with
  | [] => []
  | (_, c0) :: _ =>
    top.map (fun p => (p.1, p.2, ((p.2 : ℚ) / (c0 : ℚ)) * 100))

/-- `renderPlayHistory` (source lines 775-818) as a value.  The
`YYYY-MM` month key is derived from a session's `date` by JS `Date`
parsing plus formatting; that derivation is passed in as `monthKey`.
Months are sorted descending (the `b.localeCompare(a)` of the source,
lexicographic on these keys), at most 12 kept, each with its count and
percentage of the maximum count among the kept months; `[]` when there
are no sessions (the early return before `Math.max` and any division). -/
def playHistory (monthKey : String → String) (ss : List Session) :
    List (String × Nat × ℚ) :=
  let mc := ss.foldl (fun acc s => bump acc (monthKey s.date)) []
  let months := (sortKeyDesc (fun k => k) (mc.map (fun p => p.1))).take 12
  match months with
  | [] => []
  | _ =>
    let maxCount := months.foldl (fun m k => max m (valOf mc k)) 0
    months.map (fun k => (k, valOf mc k, ((valOf mc k : ℚ) / (maxCount : ℚ)) * 100))

/-- A session referencing a given game (all other fields empty), for
concrete examples. -/
def mkSession (gid : String) : Session :=
  { gameId := gid }

/-- Five sessions for `"G1"` and three for `"G2"` — the concrete
most-played example of the specification. -/
def mostPlayedExample : List Session :=
  [mkSession "G1", mkSession "G1", mkSession "G1", mkSession "G1", mkSession "G1",
   mkSession "G2", mkSession "G2", mkSession "G2"]

/-! ### Helper lemmas -/

theorem migrateGameData_eq_true (now : String) (g : RawGame)
    (hb : (truthyS g.name && !truthyS g.title) = true) :
    migrateGameData now g =
      { g with title := g.name, status := jsOr g.status "owned",
               createdAt := jsOr g.createdAt now } := by
  unfold migrateGameData
  rw [hb]
  rfl

theorem migrateGameData_eq_false (now : String) (g : RawGame)
    (hb : (truthyS g.name && !truthyS g.title) = false) :
    migrateGameData now g =
      { g with status := jsOr g.status "owned",
               createdAt := jsOr g.createdAt now } := by
  unfold migrateGameData
  rw [hb]
  rfl

theorem truthyS_jsOr (o : Option String) (d : String) (hd : d ≠ "") :
    truthyS (jsOr o d) = true := by
  cases o with
  | none => simp [jsOr, truthyS, hd]
  | some s =>
    by_cases hs : s = "" <;> simp [jsOr, truthyS, hs, hd]

theorem jsOr_of_truthy (o : Option String) (d : String) (h : truthyS o = true) :
    jsOr o d = o := by
  cases o with
  | none => simp [truthyS] at h
  | some s =>
    have hs : s ≠ "" := by simpa [truthyS] using h
    simp [jsOr, hs]

/-! ### C1: cascade delete -/

/-- C1: `deleteGame(G.id)` leaves no game with that id and no session
whose `gameId` equals it, while every game with another id and every
session referencing another game stays in the collections. -/
theorem deleteGame_cascade (st : AppState) (gid : String) :
    (∀ g ∈ (deleteGame gid st).games, g.id ≠ some gid)
    ∧ (∀ s ∈ (deleteGame gid st).sessions, s.gameId ≠ gid)
    ∧ (∀ g ∈ st.games, g.id ≠ some gid → g ∈ (deleteGame gid st).games)
    ∧ (∀ s ∈ st.sessions, s.gameId ≠ gid → s ∈ (deleteGame gid st).sessions) := by
  refine ⟨?_, ?_, ?_, ?_⟩
  · intro g hg
    simp [deleteGame, List.mem_filter] at hg
    exact hg.2
  · intro s hs
    simp [deleteGame, List.mem_filter] at hs
    exact hs.2
  · intro g hg hne
    simp [deleteGame, List.mem_filter]
    exact ⟨hg, hne⟩
  · intro s hs hne
    simp [deleteGame, List.mem_filter]
    exact ⟨hs, hne⟩

/-- Concrete two-game, two-session state used to instantiate C1. -/
def stW : AppState where
  games := [{ id := some "g1", title := some "A" }, { id := some "g2", title := some "B" }]
  sessions := [{ mkSession "g1" with id := some "s1" }, { mkSession "g2" with id := some "s2" }]

/-- C1 witness: deleting `"g1"` from the concrete state keeps the other
game and its session while no trace of `"g1"` survives. -/
theorem deleteGame_cascade_witness :
    ({ id := some "g2", title := some "B" } : RawGame) ∈ (deleteGame "g1" stW).games
    ∧ ({ mkSession "g2" with id := some "s2" } : Session) ∈ (deleteGame "g1" stW).sessions
    ∧ (∀ g ∈ (deleteGame "g1" stW).games, g.id ≠ some "g1")
    ∧ (∀ s ∈ (deleteGame "g1" stW).sessions, s.gameId ≠ "g1") :=
  ⟨(deleteGame_cascade stW "g1").2.2.1 _ (by decide) (by decide),
   (deleteGame_cascade stW "g1").2.2.2 _ (by decide) (by decide),
   (deleteGame_cascade stW "g1").1,
   (deleteGame_cascade stW "g1").2.1⟩

/-! ### C3: migration idempotence -/

/-- C3: migration is idempotent.  `now` is the timestamp the first run
fills in (`new Date().toISOString()`, never the empty string in the
source); the second run may observe any later timestamp `now2`. -/
theorem migrateGameData_idempotent (now now2 : String) (g : RawGame)
    (h : now ≠ "") :
    migrateGameData now2 (migrateGameData now g) = migrateGameData now g := by
  have hst : truthyS (migrateGameData now g).status = true := by
    cases hb : (truthyS g.name && !truthyS g.title) with
    | true => rw [migrateGameData_eq_true now g hb]; exact truthyS_jsOr _ "owned" (by decide)
    | false => rw [migrateGameData_eq_false now g hb]; exact truthyS_jsOr _ "owned" (by decide)
  have hca : truthyS (migrateGameData now g).createdAt = true := by
    cases hb : (truthyS g.name && !truthyS g.title) with
    | true => rw [migrateGameData_eq_true now g hb]; exact truthyS_jsOr _ now h
    | false => rw [migrateGameData_eq_false now g hb]; exact truthyS_jsOr _ now h
  have hcond : (truthyS (migrateGameData now g).name
      && !truthyS (migrateGameData now g).title) = false := by
    cases hb : (truthyS g.name && !truthyS g.title) with
    | true =>
      rw [migrateGameData_eq_true now g hb]
      show (truthyS g.name && !truthyS g.name) = false
      cases truthyS g.name <;> rfl
    | false =>
      rw [migrateGameData_eq_false now g hb]
      exact hb
  rw [migrateGameData_eq_false now2 _ hcond,
    jsOr_of_truthy _ _ hst, jsOr_of_truthy _ _ hca]

/-- C3 witness: idempotence at a concrete legacy record and timestamps. -/
theorem migrateGameData_idempotent_witness :
    migrateGameData "2025-02-02" (migrateGameData "2025-01-01" { name := some "Chess" })
      = migrateGameData "2025-01-01" { name := some "Chess" } :=
  migrateGameData_idempotent "2025-01-01" "2025-02-02" _ (by decide)

/-! ### C9: legacy migration (name → title) -/

/-- C9 (amended: `name` present *and non-empty*): migrating a record
with absent `title` and truthy `name` copies the name into `title`,
defaults an absent `status` to `"owned"`, fills an absent `createdAt`
with the current time, and passes every other field through unchanged. -/
theorem migrate_legacy_name (now : String) (r : RawGame) (s : String)
    (hn : r.name = some s) (hs : s ≠ "") (ht : r.title = none) :
    (migrateGameData now r).title = some s
    ∧ (r.status = none → (migrateGameData now r).status = some "owned")
    ∧ (r.createdAt = none → (migrateGameData now r).createdAt = some now)
    ∧ (migrateGameData now r).name = r.name
    ∧ (migrateGameData now r).id = r.id
    ∧ (migrateGameData now r).yearPublished = r.yearPublished
    ∧ (migrateGameData now r).designer = r.designer
    ∧ (migrateGameData now r).publisher = r.publisher
    ∧ (migrateGameData now r).minPlayers = r.minPlayers
    ∧ (migrateGameData now r).maxPlayers = r.maxPlayers
    ∧ (migrateGameData now r).playTime = r.playTime
    ∧ (migrateGameData now r).complexity = r.complexity
    ∧ (migrateGameData now r).rating = r.rating
    ∧ (migrateGameData now r).categories = r.categories
    ∧ (migrateGameData now r).acquisitionDate = r.acquisitionDate
    ∧ (migrateGameData now r).imageUrl = r.imageUrl
    ∧ (migrateGameData now r).notes = r.notes := by
  have hcond : (truthyS r.name && !truthyS r.title) = true := by
    simp [hn, ht, truthyS, hs]
  rw [migrateGameData_eq_true now r hcond]
  refine ⟨by simp [hn], ?_, ?_, rfl, rfl, rfl, rfl, rfl, rfl, rfl, rfl, rfl, rfl, rfl, rfl, rfl, rfl⟩
  · intro h2; simp [h2, jsOr]
  · intro h2; simp [h2, jsOr]

/-- C9 witness: `migrateGame({name: "Chess"})` yields `title "Chess"`,
`status "owned"`, and `createdAt` set to the current time. -/
theorem migrate_legacy_name_witness :
    (migrateGameData "2025-01-01T00:00:00.000Z" { name := some "Chess" }).title = some "Chess"
    ∧ (migrateGameData "2025-01-01T00:00:00.000Z" { name := some "Chess" }).status = some "owned"
    ∧ (migrateGameData "2025-01-01T00:00:00.000Z" { name := some "Chess" }).createdAt
        = some "2025-01-01T00:00:00.000Z" :=
  have h := migrate_legacy_name "2025-01-01T00:00:00.000Z" { name := some "Chess" } "Chess"
    rfl (by decide) rfl
  ⟨h.1, h.2.1 rfl, h.2.2.1 rfl⟩

/-- C9 counterexample to the claim as stated: a record whose `name` key
is present but empty has an absent title after migration — the source
tests truthiness (`game.name && !game.title`), not presence, so the
migrated title does not equal the present name value `""`. -/
theorem migrate_legacy_name_cex :
    (({ name := some "" } : RawGame).title = none)
    ∧ (({ name := some "" } : RawGame).name = some "")
    ∧ (migrateGameData "2025-01-01" { name := some "" }).title ≠ some "" := by
  decide

/-! ### C10: empty title treated as absent -/

/-- C10: an empty-string `title` is falsy, so a truthy legacy `name`
overwrites it exactly as if the title were absent. -/
theorem migrate_empty_title (now : String) (r : RawGame) (s : String)
    (hn : r.name = some s) (hs : s ≠ "") (ht : r.title = some "") :
    (migrateGameData now r).title = some s := by
  have hcond : (truthyS r.name && !truthyS r.title) = true := by
    simp [hn, ht, truthyS, hs]
  rw [migrateGameData_eq_true now r hcond]
  exact hn

/-- C10 witness: an empty title is replaced by the legacy name. -/
theorem migrate_empty_title_witness :
    (migrateGameData "2025-01-01" { name := some "Go", title := some "" }).title = some "Go" :=
  migrate_empty_title "2025-01-01" { name := some "Go", title := some "" } "Go"
    rfl (by decide) rfl

/-! ### C4: import -/

/-- C4: an import document whose `games` field is missing or not an
array fails with the prior state untouched; a structurally valid
document (once confirmed) migrates every game and replaces the whole
state, `sessions` defaulting to the empty sequence when absent. -/
theorem importData_spec (c : Bool) (now : String) (doc : ImportDoc) (st : AppState) :
    ((doc.games = .missing ∨ doc.games = .notArray) →
      importData c now doc st = (st, .failed))
    ∧ (∀ gs, doc.games = .arr gs →
        importData true now doc st
          = ({ games := gs.map (migrateGameData now),
               sessions := doc.sessions.getD [] }, .imported))
    ∧ (∀ gs, doc.games = .arr gs → doc.sessions = none →
        (importData true now doc st).1.sessions = []) := by
  refine ⟨?_, ?_, ?_⟩
  · rintro (h | h) <;> simp [importData, h]
  · intro gs h
    simp [importData, h]
  · intro gs h hs
    simp [importData, h, hs]

/-- Malformed import document (games key absent). -/
def docBad : ImportDoc := { games := .missing, sessions := some [mkSession "g9"] }

/-- Valid import document: one legacy game, no sessions key. -/
def docW : ImportDoc := { games := .arr [{ name := some "Chess" }] }

/-- C4 witness: the malformed document leaves the concrete prior state
untouched and fails; the valid one replaces it with the migrated games
and an empty sessions list. -/
theorem importData_spec_witness :
    importData true "2025-01-01" docBad stW = (stW, .failed)
    ∧ importData true "2025-01-01" docW stW
        = ({ games := [{ name := some "Chess" }].map (migrateGameData "2025-01-01"),
             sessions := docW.sessions.getD [] }, .imported)
    ∧ (importData true "2025-01-01" docW stW).1.sessions = [] :=
  ⟨(importData_spec true "2025-01-01" docBad stW).1 (Or.inl rfl),
   (importData_spec true "2025-01-01" docW stW).2.1 _ rfl,
   (importData_spec true "2025-01-01" docW stW).2.2 _ rfl rfl⟩

/-! ### C6: display filter -/

theorem startsB_iff (needle hay : List Char) :
    startsB needle hay = true ↔ ∃ post, hay = needle ++ post := by
  induction needle generalizing hay with
  | nil => simp [startsB]
  | cons a as ih =>
    cases hay with
    | nil => simp [startsB]
    | cons b bs =>
      rw [startsB]
      simp only [Bool.and_eq_true, beq_iff_eq, ih, List.cons_append, List.cons.injEq]
      constructor
      · rintro ⟨rfl, post, rfl⟩
        exact ⟨post, rfl, rfl⟩
      · rintro ⟨post, rfl, rfl⟩
        exact ⟨rfl, post, rfl⟩

theorem containsB_iff (hay needle : List Char) :
    containsB hay needle = true ↔ ∃ pre post, hay = pre ++ needle ++ post := by
  induction hay with
  | nil =>
    rw [containsB]
    simp [List.isEmpty_iff, eq_comm (a := ([] : List Char)), List.append_eq_nil]
  | cons b t ih =>
    rw [containsB]
    simp only [Bool.or_eq_true, startsB_iff, ih]
    constructor
    · rintro (⟨post, hp⟩ | ⟨pre, post, hp⟩)
      · exact ⟨[], post, by simp [hp]⟩
      · exact ⟨b :: pre, post, by simp [hp]⟩
    · rintro ⟨pre, post, hp⟩
      cases pre with
      | nil =>
        exact Or.inl ⟨post, by simpa using hp⟩
      | cons c cs =>
        simp only [List.cons_append, List.cons.injEq] at hp
        exact Or.inr ⟨cs, post, hp.2⟩

theorem jsToLower_empty_iff (s : String) : jsToLower s = "" ↔ s = "" := by
  cases s with
  | mk d =>
    constructor
    · intro h2
      have h3 : d.map Char.toLower = [] := congrArg String.data h2
      have h4 : d = [] := by simpa using h3
      subst h4
      rfl
    · intro h2
      have h4 : d = [] := congrArg String.data h2
      subst h4
      rfl

/-- C6: the display filter keeps a game iff the status filter is `"all"`
or matches the game's status, and the search term is empty or occurs
case-insensitively (via lowercasing) inside the game's title, designer,
publisher or categories, absent fields read as the empty string. -/
theorem keepGame_iff (term filt : String) (g : RawGame) :
    keepGame term filt g = true ↔
      ((filt = "all" ∨ g.status = some filt)
       ∧ (term = ""
          ∨ (∃ pre post, (jsToLower (g.title.getD "")).data
              = pre ++ (jsToLower term).data ++ post)
          ∨ (∃ pre post, (jsToLower (g.designer.getD "")).data
              = pre ++ (jsToLower term).data ++ post)
          ∨ (∃ pre post, (jsToLower (g.publisher.getD "")).data
              = pre ++ (jsToLower term).data ++ post)
          ∨ (∃ pre post, (jsToLower (g.categories.getD "")).data
              = pre ++ (jsToLower term).data ++ post))) := by
  simp only [keepGame, fieldMatches, Bool.and_eq_true, Bool.or_eq_true, beq_iff_eq,
    containsB_iff, jsToLower_empty_iff, or_assoc]
  exact and_comm

/-- C6 witness (the spec's concrete case): wishlist "Catan" is excluded
under the `owned` filter whatever the term, and kept under `all` with
term `"cat"`. -/
theorem keepGame_iff_witness :
    keepGame "cat" "owned" { title := some "Catan", status := some "wishlist" } = false
    ∧ keepGame "cat" "all" { title := some "Catan", status := some "wishlist" } = true := by
  constructor
  · have h := keepGame_iff "cat" "owned" { title := some "Catan", status := some "wishlist" }
    by_contra hb
    rw [Bool.not_eq_false] at hb
    rcases (h.mp hb).1 with h1 | h1 <;> simp at h1
  · exact (keepGame_iff "cat" "all" { title := some "Catan", status := some "wishlist" }).mpr
      ⟨Or.inl rfl, Or.inr (Or.inl ⟨[], ['a', 'n'], by decide⟩)⟩

/-! ### C2: upsert with present id -/

theorem mergeF_eq (o n : Option α) : mergeF o n = if n.isSome then n else o := by
  cases n <;> rfl

theorem updateFirst_of_none (p : α → Bool) (f : α → α) (l : List α)
    (h : ∀ x ∈ l, p x = false) : updateFirst p f l = l := by
  induction l with
  | nil => rfl
  | cons a t ih =>
    rw [updateFirst, h a (List.mem_cons_self a t), ih (fun x hx => h x (List.mem_cons_of_mem a hx))]
    rfl

theorem updateFirst_get? (p : α → Bool) (f : α → α) :
    ∀ (l : List α) (i : Nat) (x : α),
      l.get? i = some x → p x = true →
      (∀ j, j < i → ∀ y, l.get? j = some y → p y = false) →
      (updateFirst p f l).get? i = some (f x)
      ∧ ∀ j, j ≠ i → (updateFirst p f l).get? j = l.get? j := by
  intro l
  induction l with
  | nil => intro i x hx; simp at hx
  | cons a t ih =>
    intro i x hx hp hbefore
    cases i with
    | zero =>
      have hax : a = x := by simpa using hx
      subst hax
      rw [updateFirst, hp]
      refine ⟨rfl, ?_⟩
      intro j hj
      cases j with
      | zero => exact absurd rfl hj
      | succ j2 => rfl
    | succ i2 =>
      have ha : p a = false := hbefore 0 (Nat.succ_pos _) a rfl
      rw [updateFirst, ha]
      simp only [Bool.false_eq_true, if_false]
      have ih2 := ih i2 x (by simpa using hx) hp
        (fun j hj y hy => hbefore (j + 1) (by omega) y (by simpa using hy))
      refine ⟨by simpa using ih2.1, ?_⟩
      intro j hj
      cases j with
      | zero => rfl
      | succ j2 =>
        simpa using ih2.2 j2 (by omega)

/-- C2 (amended: id present *and non-empty*, `createdAt` preserved when
the input does not itself carry one): with an unknown id the upsert is a
no-op; with a matching id the first matching record is replaced by the
spread merge, every other position is untouched, the merged record
keeps the original id, keeps `createdAt` whenever the input has none,
and field-by-field takes the input value when present and the prior
value when absent. -/
theorem saveGame_merge_spec (e : String × String) (now : String) (gd : RawGame)
    (gs : List RawGame) (x : String) (hid : gd.id = some x) (hx : x ≠ "") :
    ((∀ g ∈ gs, g.id ≠ some x) → saveGame e now gd gs = gs)
    ∧ (∀ i old, gs.get? i = some old → old.id = some x →
        (∀ j, j < i → ∀ g2, gs.get? j = some g2 → g2.id ≠ some x) →
        ((saveGame e now gd gs).get? i = some (mergeGame old gd)
         ∧ (∀ j, j ≠ i → (saveGame e now gd gs).get? j = gs.get? j)
         ∧ (mergeGame old gd).id = old.id
         ∧ (gd.createdAt = none → (mergeGame old gd).createdAt = old.createdAt)
         ∧ (mergeGame old gd).title = (if gd.title.isSome then gd.title else old.title)
         ∧ (mergeGame old gd).name = (if gd.name.isSome then gd.name else old.name)
         ∧ (mergeGame old gd).status = (if gd.status.isSome then gd.status else old.status)
         ∧ (mergeGame old gd).createdAt
             = (if gd.createdAt.isSome then gd.createdAt else old.createdAt)
         ∧ (mergeGame old gd).yearPublished
             = (if gd.yearPublished.isSome then gd.yearPublished else old.yearPublished)
         ∧ (mergeGame old gd).designer = (if gd.designer.isSome then gd.designer else old.designer)
         ∧ (mergeGame old gd).publisher
             = (if gd.publisher.isSome then gd.publisher else old.publisher)
         ∧ (mergeGame old gd).minPlayers
             = (if gd.minPlayers.isSome then gd.minPlayers else old.minPlayers)
         ∧ (mergeGame old gd).maxPlayers
             = (if gd.maxPlayers.isSome then gd.maxPlayers else old.maxPlayers)
         ∧ (mergeGame old gd).playTime = (if gd.playTime.isSome then gd.playTime else old.playTime)
         ∧ (mergeGame old gd).complexity
             = (if gd.complexity.isSome then gd.complexity else old.complexity)
         ∧ (mergeGame old gd).rating = (if gd.rating.isSome then gd.rating else old.rating)
         ∧ (mergeGame old gd).categories
             = (if gd.categories.isSome then gd.categories else old.categories)
         ∧ (mergeGame old gd).acquisitionDate
             = (if gd.acquisitionDate.isSome then gd.acquisitionDate else old.acquisitionDate)
         ∧ (mergeGame old gd).imageUrl = (if gd.imageUrl.isSome then gd.imageUrl else old.imageUrl)
         ∧ (mergeGame old gd).notes = (if gd.notes.isSome then gd.notes else old.notes))) := by
  have htid : truthyS gd.id = true := by simp [hid, truthyS, hx]
  have hsg : saveGame e now gd gs
      = updateFirst (fun g => g.id == gd.id) (fun old => mergeGame old gd) gs := by
    rw [saveGame, htid]
    rfl
  constructor
  · intro hnone
    rw [hsg]
    refine updateFirst_of_none _ _ _ ?_
    intro g hg
    simp [hid]
    exact hnone g hg
  · intro i old hi hold hbefore
    have hup := updateFirst_get? (fun g => g.id == gd.id) (fun o => mergeGame o gd) gs i old
      hi (by simp [hid, hold]) (fun j hj y hy => by simpa [hid] using hbefore j hj y hy)
    refine ⟨by rw [hsg]; exact hup.1, fun j hj => by rw [hsg]; exact hup.2 j hj, ?_, ?_, ?_⟩
    · rw [hold]
      simp [mergeGame, mergeF, hid]
    · intro h2
      simp [mergeGame, mergeF, h2]
    · refine ⟨?_, ?_, ?_, ?_, ?_, ?_, ?_, ?_, ?_, ?_, ?_, ?_, ?_, ?_, ?_, ?_⟩ <;>
        simp [mergeGame, mergeF_eq]

/-- The existing stored record of the upsert-merge example. -/
def gOldW : RawGame :=
  { id := some "x", title := some "T", rating := some 7, createdAt := some "2019-01-01" }

/-- The upsert input of the example: `{id: "x", notes: "n"}`. -/
def gdW : RawGame := { id := some "x", notes := some "n" }

/-- C2 witness (the spec's merge example): upserting `{id: "x", notes:
"n"}` over `{id: "x", title: "T", rating: 7}` replaces position 0 with a
record that keeps `title "T"`, `rating 7`, `id` and `createdAt`, and
gains `notes "n"`. -/
theorem saveGame_merge_spec_witness :
    (saveGame ("t", "r") "2025-01-01" gdW [gOldW]).get? 0 = some (mergeGame gOldW gdW)
    ∧ (mergeGame gOldW gdW).title = some "T"
    ∧ (mergeGame gOldW gdW).rating = some 7
    ∧ (mergeGame gOldW gdW).notes = some "n"
    ∧ (mergeGame gOldW gdW).id = gOldW.id
    ∧ (mergeGame gOldW gdW).createdAt = gOldW.createdAt :=
  have h := (saveGame_merge_spec ("t", "r") "2025-01-01" gdW [gOldW] "x" rfl (by decide)).2
    0 gOldW rfl rfl (by omega)
  ⟨h.1, by decide, by decide, by decide, h.2.2.1, h.2.2.2.1 rfl⟩

/-- C2 counterexample to the claim as stated, in two parts: (a) an
upsert input that itself carries a `createdAt` overwrites the original
`createdAt` (the object spread merges *every* given field); (b) a
present-but-empty id is falsy, so instead of the claimed no-op the code
appends a brand-new record. -/
theorem saveGame_claim_cex :
    ((saveGame ("t", "r") "now" { id := some "x", createdAt := some "2020-01-01" }
        [gOldW]).map (fun g => g.createdAt) = [some "2020-01-01"]
      ∧ gOldW.createdAt = some "2019-01-01")
    ∧ saveGame ("t", "r") "now" { id := some "" } [] ≠ [] := by
  decide

/-! ### C7: id generation across a sequence of creates -/

/-- The freshly created record appended by the create branch of
`saveGame` for one input triple. -/
def newGameOf (i : (String × String) × String × RawGame) : RawGame :=
  { i.2.2 with id := some (generateId i.1.1 i.1.2), createdAt := some i.2.1 }

theorem runSaves_create (inputs : List ((String × String) × String × RawGame)) :
    ∀ acc, (∀ i ∈ inputs, i.2.2.id = none) →
      runSaves inputs acc = acc ++ inputs.map newGameOf := by
  induction inputs with
  | nil => intro acc _; simp [runSaves]
  | cons a t ih =>
    intro acc h
    have ha : a.2.2.id = none := h a (List.mem_cons_self a t)
    have hstep : saveGame a.1 a.2.1 a.2.2 acc = acc ++ [newGameOf a] := by
      rw [saveGame, ha]
      rfl
    have ht := ih (acc ++ [newGameOf a]) (fun i hi => h i (List.mem_cons_of_mem a hi))
    calc runSaves (a :: t) acc
        = runSaves t (saveGame a.1 a.2.1 a.2.2 acc) := by rw [runSaves, runSaves, List.foldl_cons]
      _ = _ := by rw [hstep, ht, List.map_cons, List.append_assoc, List.singleton_append]

/-- C7 (amended): a sequence of N upserts with absent id, starting from
the empty collection, yields exactly N records whose ids are the
generated `time ++ random` strings in call order; those ids are pairwise
distinct **provided** the generated strings are pairwise distinct — the
generator itself enforces nothing beyond concatenating its two entropy
components. -/
theorem createIds_spec (inputs : List ((String × String) × String × RawGame))
    (habs : ∀ i ∈ inputs, i.2.2.id = none) :
    (runSaves inputs []).length = inputs.length
    ∧ (runSaves inputs []).map (fun g => g.id)
        = inputs.map (fun i => some (generateId i.1.1 i.1.2))
    ∧ ((inputs.map (fun i => generateId i.1.1 i.1.2)).Nodup →
        ((runSaves inputs []).map (fun g => g.id)).Nodup
        ∧ (runSaves inputs []).Pairwise (fun a b => a.id ≠ b.id)) := by
  rw [runSaves_create inputs [] habs, List.nil_append]
  have hmap : (inputs.map newGameOf).map (fun g => g.id)
      = inputs.map (fun i => some (generateId i.1.1 i.1.2)) := by
    rw [List.map_map]
    rfl
  refine ⟨by simp, hmap, ?_⟩
  intro hnd
  have hids : (inputs.map (fun i => some (generateId i.1.1 i.1.2))).Nodup := by
    have h4 := List.Nodup.map (f := some) (Option.some_injective String) hnd
    simpa [List.map_map, Function.comp] using h4
  rw [hmap]
  refine ⟨hids, ?_⟩
  have h3 : ((inputs.map newGameOf).map (fun g => g.id)).Nodup := by rw [hmap]; exact hids
  exact List.pairwise_map.mp h3

/-- Two create calls with distinct entropy. -/
def idInputsW : List ((String × String) × String × RawGame) :=
  [(("t1", "r1"), "2025-01-01", { title := some "A" }),
   (("t2", "r2"), "2025-01-02", { title := some "B" })]

/-- C7 witness: with distinct entropy the two created records carry the
two distinct generated ids. -/
theorem createIds_spec_witness :
    (runSaves idInputsW []).length = idInputsW.length
    ∧ ((runSaves idInputsW []).map (fun g => g.id)).Nodup :=
  ⟨(createIds_spec idInputsW (by decide)).1,
   ((createIds_spec idInputsW (by decide)).2.2 (by decide)).1⟩

/-- Two create calls that observe the same `Date.now()` and the same
`Math.random()` output. -/
def idInputsCex : List ((String × String) × String × RawGame) :=
  [(("t", "r"), "2025-01-01", { title := some "A" }),
   (("t", "r"), "2025-01-01", { title := some "B" })]

/-- C7 counterexample to the claim as stated: under an execution where
both calls observe the same millisecond and the same random value, the
two stored ids are both `"tr"` — the id generator does not guarantee
collision-freedom within one instance. -/
theorem generateId_collision_cex :
    (runSaves idInputsCex []).length = 2
    ∧ (runSaves idInputsCex []).map (fun g => g.id) = [some "tr", some "tr"]
    ∧ ¬ ((runSaves idInputsCex []).map (fun g => g.id)).Nodup := by
  refine ⟨by decide, by decide, ?_⟩
  intro h
  have h2 : ((runSaves idInputsCex []).map (fun g => g.id)).Nodup = True := by simp [h]
  rw [show (runSaves idInputsCex []).map (fun g => g.id) = [some "tr", some "tr"] from by decide]
    at h
  simp at h

/-! ### C5 and C8: aggregation -/

/-- The keys of a tally, in insertion order. -/
def keysOf (l : List (String × Nat)) : List String := l.map (fun p => p.1)

theorem keysOf_bump (l : List (String × Nat)) (g : String) :
    keysOf (bump l g) = if g ∈ keysOf l then keysOf l else keysOf l ++ [g] := by
  induction l with
  | nil => simp [bump, keysOf]
  | cons p t ih =>
    obtain ⟨k, c⟩ := p
    rw [bump]
    by_cases hk : k = g
    · subst hk
      simp [keysOf]
    · rw [if_neg hk]
      have hgk : g ≠ k := Ne.symm hk
      show k :: keysOf (bump t g) = _
      by_cases hm : g ∈ keysOf t
      · rw [ih, if_pos hm, if_pos (show g ∈ keysOf ((k, c) :: t) from List.mem_cons_of_mem k hm)]
        rfl
      · rw [ih, if_neg hm, if_neg (show g ∉ keysOf ((k, c) :: t) from by
          simp [keysOf, List.mem_cons, hgk]
          simpa [keysOf] using hm)]
        rfl

theorem bump_keys_nodup (l : List (String × Nat)) (g : String)
    (h : (keysOf l).Nodup) : (keysOf (bump l g)).Nodup := by
  rw [keysOf_bump]
  by_cases hm : g ∈ keysOf l
  · simpa [hm] using h
  · rw [if_neg hm]
    rw [List.nodup_append]
    exact ⟨h, by simp, by simpa using hm⟩

theorem playCounts_keys_nodup (ss : List Session) :
    (keysOf (playCounts ss)).Nodup := by
  have h : ∀ acc, (keysOf acc).Nodup →
      (keysOf (ss.foldl (fun a s => bump a s.gameId) acc)).Nodup := by
    induction ss with
    | nil => intro acc ha; simpa using ha
    | cons s t ih =>
      intro acc ha
      rw [List.foldl_cons]
      exact ih _ (bump_keys_nodup acc s.gameId ha)
  exact h [] (by simp [keysOf])

theorem valOf_bump_same (l : List (String × Nat)) (g : String) :
    valOf (bump l g) g = valOf l g + 1 := by
  induction l with
  | nil => simp [bump, valOf]
  | cons p t ih =>
    obtain ⟨k, c⟩ := p
    rw [bump]
    by_cases hk : k = g
    · subst hk
      simp [valOf, List.find?_cons_of_pos]
    · rw [if_neg hk]
      simp only [valOf] at ih ⊢
      rw [List.find?_cons_of_neg _ (by simp [hk]), List.find?_cons_of_neg _ (by simp [hk])]
      exact ih

theorem valOf_bump_ne (l : List (String × Nat)) (gb q : String) (hne : q ≠ gb) :
    valOf (bump l gb) q = valOf l q := by
  induction l with
  | nil => simp [bump, valOf, Ne.symm hne]
  | cons p t ih =>
    obtain ⟨k, c⟩ := p
    rw [bump]
    by_cases hk : k = gb
    · subst hk
      rw [if_pos rfl]
      simp only [valOf]
      rw [List.find?_cons_of_neg _ (by simp [Ne.symm hne]),
        List.find?_cons_of_neg _ (by simp [Ne.symm hne])]
    · rw [if_neg hk]
      by_cases hq : k = q
      · subst hq
        simp only [valOf]
        rw [List.find?_cons_of_pos _ (by simp), List.find?_cons_of_pos _ (by simp)]
      · simp only [valOf] at ih ⊢
        rw [List.find?_cons_of_neg _ (by simp [hq]), List.find?_cons_of_neg _ (by simp [hq])]
        exact ih

theorem valOf_foldl (ss : List Session) :
    ∀ acc g, valOf (ss.foldl (fun a s => bump a s.gameId) acc) g
      = valOf acc g + ss.countP (fun s => s.gameId == g) := by
  induction ss with
  | nil => intro acc g; simp
  | cons s t ih =>
    intro acc g
    rw [List.foldl_cons, ih, List.countP_cons]
    by_cases hg : s.gameId = g
    · subst hg
      rw [valOf_bump_same]
      simp only [beq_self_eq_true, if_pos]
      omega
    · rw [valOf_bump_ne acc s.gameId g (Ne.symm hg)]
      simp [hg]

theorem valOf_playCounts (ss : List Session) (g : String) :
    valOf (playCounts ss) g = ss.countP (fun s => s.gameId == g) := by
  have h := valOf_foldl ss [] g
  simpa [playCounts, valOf] using h

theorem valOf_of_mem (l : List (String × Nat)) (h : (keysOf l).Nodup)
    (p : String × Nat) (hp : p ∈ l) : valOf l p.1 = p.2 := by
  induction l with
  | nil => simp at hp
  | cons q t ih =>
    have h2 : q.1 ∉ keysOf t ∧ (keysOf t).Nodup := by
      simpa [keysOf] using h
    rcases List.mem_cons.mp hp with rfl | hp2
    · simp only [valOf]
      rw [List.find?_cons_of_pos _ (by simp)]
      rfl
    · have hne : q.1 ≠ p.1 := by
        intro he
        exact h2.1 (he ▸ List.mem_map.mpr ⟨p, hp2, rfl⟩)
      simp only [valOf] at ih ⊢
      rw [List.find?_cons_of_neg _ (by simp [hne])]
      exact ih h2.2 hp2

theorem insertKeyDesc_perm [LinearOrder β] (key : α → β) (x : α) (l : List α) :
    List.Perm (insertKeyDesc key x l) (x :: l) := by
  induction l with
  | nil => exact List.Perm.refl _
  | cons y ys ih =>
    rw [insertKeyDesc]
    by_cases hlt : key y < key x
    · rw [if_pos hlt]
    · rw [if_neg hlt]
      exact (ih.cons y).trans (List.Perm.swap x y ys)

theorem sortKeyDesc_perm [LinearOrder β] (key : α → β) (l : List α) :
    List.Perm (sortKeyDesc key l) l := by
  have h : ∀ acc, List.Perm (l.foldl (fun acc x => insertKeyDesc key x acc) acc) (acc ++ l) := by
    induction l with
    | nil => intro acc; simp
    | cons x t ih =>
      intro acc
      rw [List.foldl_cons]
      refine (ih (insertKeyDesc key x acc)).trans ?_
      refine ((insertKeyDesc_perm key x acc).append_right t).trans ?_
      have hmid : List.Perm (x :: (acc ++ t)) (acc ++ x :: t) := List.perm_middle.symm
      simpa using hmid
  simpa using h []

theorem insertKeyDesc_pairwise [LinearOrder β] (key : α → β) (x : α) (l : List α)
    (h : l.Pairwise (fun a b => key b ≤ key a)) :
    (insertKeyDesc key x l).Pairwise (fun a b => key b ≤ key a) := by
  induction l with
  | nil => simp [insertKeyDesc]
  | cons y ys ih =>
    rw [insertKeyDesc]
    rw [List.pairwise_cons] at h
    by_cases hlt : key y < key x
    · rw [if_pos hlt]
      rw [List.pairwise_cons]
      constructor
      · intro z hz
        rcases List.mem_cons.mp hz with rfl | hz2
        · exact le_of_lt hlt
        · exact (h.1 z hz2).trans (le_of_lt hlt)
      · exact List.pairwise_cons.mpr h
    · rw [if_neg hlt]
      rw [List.pairwise_cons]
      constructor
      · intro z hz
        rcases List.mem_cons.mp ((insertKeyDesc_perm key x ys).mem_iff.mp hz) with rfl | hz3
        · exact not_lt.mp hlt
        · exact h.1 z hz3
      · exact ih h.2

theorem sortKeyDesc_pairwise [LinearOrder β] (key : α → β) (l : List α) :
    (sortKeyDesc key l).Pairwise (fun a b => key b ≤ key a) := by
  have h : ∀ acc, acc.Pairwise (fun a b => key b ≤ key a) →
      (l.foldl (fun acc x => insertKeyDesc key x acc) acc).Pairwise
        (fun a b => key b ≤ key a) := by
    induction l with
    | nil => intro acc ha; simpa using ha
    | cons x t ih =>
      intro acc ha
      rw [List.foldl_cons]
      exact ih _ (insertKeyDesc_pairwise key x acc ha)
  exact h [] (by simp)

theorem mostPlayed_eq_nil (ss : List Session)
    (h : (sortKeyDesc (fun p => p.2) (playCounts ss)).take 10 = []) :
    mostPlayed ss = [] := by
  unfold mostPlayed
  rw [h]

theorem mostPlayed_eq_cons (ss : List Session) (p0 : String × Nat)
    (rest : List (String × Nat))
    (h : (sortKeyDesc (fun p => p.2) (playCounts ss)).take 10 = p0 :: rest) :
    mostPlayed ss
      = (p0 :: rest).map (fun p => (p.1, p.2, ((p.2 : ℚ) / (p0.2 : ℚ)) * 100)) := by
  obtain ⟨g0, c0⟩ := p0
  unfold mostPlayed
  rw [h]

/-- C5: the most-played view tallies the session count per `gameId`
(every tally entry's count is the number of sessions for its key, and
every session's game has an entry), keeps at most 10 entries sorted
descending by count, each entry's count is that game's session count,
each percentage is `count / maxCount * 100` with `maxCount` the top
entry's count, the concrete 5-vs-3 example produces percentages 100 and
60, and the empty session list produces the empty result (no division
happens there). -/
theorem mostPlayed_spec (ss : List Session) :
    (∀ p ∈ playCounts ss, p.2 = ss.countP (fun s => s.gameId == p.1))
    ∧ (∀ s ∈ ss, ∃ p ∈ playCounts ss, p.1 = s.gameId)
    ∧ (mostPlayed ss).length ≤ 10
    ∧ (mostPlayed ss).Pairwise (fun a b => b.2.1 ≤ a.2.1)
    ∧ (∀ en ∈ mostPlayed ss, en.2.1 = ss.countP (fun s => s.gameId == en.1))
    ∧ (∀ en ∈ mostPlayed ss, ∃ m, (mostPlayed ss).head?.map (fun q => q.2.1) = some m
        ∧ en.2.2 = ((en.2.1 : ℚ) / (m : ℚ)) * 100)
    ∧ mostPlayed mostPlayedExample = [("G1", 5, (100 : ℚ)), ("G2", 3, (60 : ℚ))]
    ∧ mostPlayed [] = [] := by
  have hc1 : ∀ p ∈ playCounts ss, p.2 = ss.countP (fun s => s.gameId == p.1) := by
    intro p hp
    rw [← valOf_of_mem (playCounts ss) (playCounts_keys_nodup ss) p hp, valOf_playCounts]
  have hc2 : ∀ s ∈ ss, ∃ p ∈ playCounts ss, p.1 = s.gameId := by
    intro s hs
    have hv := valOf_playCounts ss s.gameId
    have hpos : 0 < ss.countP (fun t2 => t2.gameId == s.gameId) :=
      List.countP_pos_iff.mpr ⟨s, hs, by simp⟩
    cases hf : (playCounts ss).find? (fun p => p.1 == s.gameId) with
    | none =>
      have hv2 : ss.countP (fun t2 => t2.gameId == s.gameId) = 0 := by
        simpa [valOf, hf] using hv.symm
      omega
    | some q =>
      exact ⟨q, List.mem_of_find?_eq_some hf, by simpa using List.find?_some hf⟩
  have hsorted : ((sortKeyDesc (fun p => p.2) (playCounts ss)).take 10).Pairwise
      (fun a b => b.2 ≤ a.2) :=
    List.Pairwise.sublist (List.take_sublist _ _)
      (sortKeyDesc_pairwise (fun p => p.2) (playCounts ss))
  refine ⟨hc1, hc2, ?_, ?_, ?_, ?_, ?_, rfl⟩
  · cases h : (sortKeyDesc (fun p => p.2) (playCounts ss)).take 10 with
    | nil => rw [mostPlayed_eq_nil ss h]; simp
    | cons p0 rest =>
      rw [mostPlayed_eq_cons ss p0 rest h, List.length_map, ← h]
      exact List.length_take_le 10 _
  · cases h : (sortKeyDesc (fun p => p.2) (playCounts ss)).take 10 with
    | nil => rw [mostPlayed_eq_nil ss h]; exact List.Pairwise.nil
    | cons p0 rest =>
      rw [mostPlayed_eq_cons ss p0 rest h]
      rw [List.pairwise_map]
      rw [h] at hsorted
      exact hsorted
  · cases h : (sortKeyDesc (fun p => p.2) (playCounts ss)).take 10 with
    | nil => rw [mostPlayed_eq_nil ss h]; intro en hen; simp at hen
    | cons p0 rest =>
      rw [mostPlayed_eq_cons ss p0 rest h]
      intro en hen
      rcases List.mem_map.mp hen with ⟨p, hpm, rfl⟩
      have hp2 : p ∈ playCounts ss :=
        (sortKeyDesc_perm (fun p => p.2) (playCounts ss)).mem_iff.mp
          (List.mem_of_mem_take (h ▸ hpm))
      simpa using hc1 p hp2
  · cases h : (sortKeyDesc (fun p => p.2) (playCounts ss)).take 10 with
    | nil => rw [mostPlayed_eq_nil ss h]; intro en hen; simp at hen
    | cons p0 rest =>
      rw [mostPlayed_eq_cons ss p0 rest h]
      intro en hen
      rcases List.mem_map.mp hen with ⟨p, hpm, rfl⟩
      exact ⟨p0.2, by simp, rfl⟩
  · have h : (sortKeyDesc (fun p => p.2) (playCounts mostPlayedExample)).take 10
        = [("G1", 5), ("G2", 3)] := by decide
    rw [mostPlayed_eq_cons mostPlayedExample ("G1", 5) [("G2", 3)] h]
    norm_num

/-- C5 witness: the concrete 5-vs-3 example and the length bound. -/
theorem mostPlayed_spec_witness :
    mostPlayed mostPlayedExample = [("G1", 5, (100 : ℚ)), ("G2", 3, (60 : ℚ))]
    ∧ (mostPlayed mostPlayedExample).length ≤ 10 :=
  ⟨(mostPlayed_spec mostPlayedExample).2.2.2.2.2.2.1,
   (mostPlayed_spec mostPlayedExample).2.2.1⟩

/-- C8: the aggregation operations are total Lean functions over
arbitrary collections (they return plain values, never an error), and on
zero sessions each returns the empty result: `mostPlayed`,
`frequentPlayers`, and `playHistory` (for any month-key derivation) all
yield `[]`. -/
theorem aggregations_empty :
    mostPlayed [] = [] ∧ frequentPlayers [] = []
    ∧ ∀ monthKey, playHistory monthKey [] = [] :=
  ⟨rfl, rfl, fun _ => rfl⟩

end BGT
